import Mathlib

/-!
Shallow embedding of `src/services/subscriptionService.ts` (the heuristic
subscription-extraction core) and proofs of the specification claims.

Modelling conventions:
* JavaScript strings are Lean `String`s; scanning works over `String.toList`.
* `String.prototype.includes`, `toLowerCase`, `trim` are modelled over ASCII
  (the only characters the heuristics inspect); currency symbols are single
  `Char`s and are untouched by lower-casing, as in JS.
* The regular expressions of the source are translated into explicit
  left-to-right scanners with the same leftmost-match and greedy/backtracking
  behaviour (documented at each definition).
* `parseFloat` on the matched numeric token (digits, optional `.`/`,` and one
  or two fraction digits) is exact, so the amount is modelled as `ℚ`.
* A JavaScript `Date` is `JSDate`: either `invalid` (the Invalid Date object,
  whose time value is NaN) or a civil calendar date.  `new Date(string)`
  never throws; on a string matched by one of the two date patterns it
  yields the civil date when the components form a real calendar date and
  the Invalid Date object otherwise.  `date-fns/addDays` maps Invalid Date
  to Invalid Date.
* The only data-dependent exception the source can raise is the `TypeError`
  from `h.name.toLowerCase()` when a header object lacks a string `name`;
  the pipeline is therefore embedded in `Except String`.
* The brand list `subs.json` is data, not code; the entry point takes it as
  the `subs` parameter, exactly as it is consumed (`subs.map(toLowerCase)`).
-/

set_option maxRecDepth 100000

namespace SubscriptionService

/-- Digit value of an ASCII digit character. -/
def dval (c : Char) : Nat := c.toNat - 48

/-- Whitespace as matched by the source's `\s` (modelled on the ASCII range). -/
def isJsWs (c : Char) : Bool :=
  c == ' ' || c == '\t' || c == '\n' || c == '\r' ||
  c == Char.ofNat 11 || c == Char.ofNat 12

/-- Word character for the regex `\b` boundary: `[A-Za-z0-9_]`. -/
def isWordChar (c : Char) : Bool := c.isAlphanum || c == '_'

/-- Does `needle` occur at the very start of `hay`? -/
def listStartsWith : List Char → List Char → Bool
  | [], _ => true
  | _ :: _, [] => false
  | a :: as, b :: bs => a == b && listStartsWith as bs

/-- Case-insensitive version of `listStartsWith`; `needle` is lower-case. -/
def listStartsWithCI : List Char → List Char → Bool
  | [], _ => true
  | _ :: _, [] => false
  | a :: as, b :: bs => a == b.toLower && listStartsWithCI as bs

/-- Does `needle` occur somewhere in `hay`?  Models `String.prototype.includes`. -/
def listHasSub (needle : List Char) : List Char → Bool
  | [] => listStartsWith needle []
  | c :: t => listStartsWith needle (c :: t) || listHasSub needle t

/-- `s.includes(sub)` of JavaScript. -/
def sIncludes (s sub : String) : Bool := listHasSub sub.toList s.toList

/-- `s.toLowerCase()` of JavaScript (ASCII letters; other characters unchanged). -/
def jsToLower (s : String) : String := String.mk (s.toList.map Char.toLower)

/-- Maximal run of ASCII digits at the front: `[0-9]+` (greedy), with the rest. -/
def grabDigits : List Char → List Char × List Char
  | [] => ([], [])
  | c :: t =>
    if c.isDigit then
      let p := grabDigits t
      (c :: p.1, p.2)
    else ([], c :: t)

/-- Group 1 of the money pattern at the current position:
`[0-9]+` then optionally a `.` or `,` followed by one or two digits
(greedy, as in the source regex).  Returns the matched characters. -/
def grabNum (s : List Char) : Option (List Char) :=
  let p := grabDigits s
  if p.1.isEmpty then none
  else
    match p.2 with
    | sep :: r2 =>
      if sep == '.' || sep == ',' then
        let f := grabDigits r2
        if f.1.isEmpty then some p.1 else some (p.1 ++ sep :: f.1.take 2)
      else some p.1
    | [] => some p.1

/-- Matches `\s?` then the numeric group at the current position.  A single
whitespace character is consumed greedily when one is present (the
backtracking alternative cannot succeed, as whitespace is not a digit). -/
def numAfterOptWs (s : List Char) : Option (List Char) :=
  match s with
  | [] => none
  | c :: t => if isJsWs c then grabNum t else grabNum (c :: t)

/-- Strip a literal pattern (given lower-case) case-insensitively. -/
def stripCIlit : List Char → List Char → Option (List Char)
  | [], rest => some rest
  | _ :: _, [] => none
  | p :: ps, c :: cs => if p == c.toLower then stripCIlit ps cs else none

/-- After a currency-marker alternative, `\s?` then the numeric group. -/
def tryPre (pat : List Char) (s : List Char) : Option (List Char) :=
  match stripCIlit pat s with
  | some r => numAfterOptWs r
  | none => none

/-- One attempt of the money regex
`(?:USD|\$|EUR|€|NGN|₦)?\s?([0-9]+(?:[.,][0-9]\x7b1,2\x7d)?)\s?(?:USD|EUR|NGN|₦)?/i`
at the current position, in the regex's alternation/backtracking order.
Everything after group 1 is optional and cannot affect success or the group,
so only the leading part is modelled.  Returns group 1. -/
def moneyMatchAt (s : List Char) : Option (List Char) :=
  (tryPre "usd".toList s).orElse fun _ =>
  (tryPre "$".toList s).orElse fun _ =>
  (tryPre "eur".toList s).orElse fun _ =>
  (tryPre "€".toList s).orElse fun _ =>
  (tryPre "ngn".toList s).orElse fun _ =>
  (tryPre "₦".toList s).orElse fun _ =>
  numAfterOptWs s

/-- Leftmost match of the money pattern: group 1 of `snippet.match(moneyRegex)`. -/
def findMoney : List Char → Option (List Char)
  | [] => none
  | c :: t =>
    match moneyMatchAt (c :: t) with
    | some g => some g
    | none => findMoney t

/-- Value of a digit string. -/
def digitsVal (ds : List Char) : Nat := ds.foldl (fun a c => a * 10 + dval c) 0

/-- `raw.replace(",", ".")`: JavaScript `replace` with a string pattern
replaces only the first occurrence. -/
def jsReplaceFirstComma : List Char → List Char
  | [] => []
  | c :: t => if c == ',' then '.' :: t else c :: jsReplaceFirstComma t

/-- `parseFloat` on a token of the shape `digits` or `digits.digits`
(the only shapes group 1 can take after the comma replacement); exact in `ℚ`. -/
def jsParseFloat (s : List Char) : ℚ :=
  let p := grabDigits s
  match p.2 with
  | '.' :: r2 =>
    let f := grabDigits r2
    (digitsVal p.1 : ℚ) + (digitsVal f.1 : ℚ) / (10 : ℚ) ^ f.1.length
  | _ => (digitsVal p.1 : ℚ)

/-- Result of `extractAmount`: both fields absent, or both present. -/
structure AmountCurrency where
  amount : Option ℚ
  currency : Option String
deriving DecidableEq

/-- `extractAmount` of the source: first money-regex match on the raw snippet;
currency inferred from symbols present anywhere in the snippet, `USD` default. -/
def extractAmount (snippet : String) : AmountCurrency :=
  match findMoney snippet.toList with
  | none => ⟨none, none⟩
  | some g =>
    let raw := jsReplaceFirstComma g
    let num := jsParseFloat raw
    let currency :=
      if sIncludes snippet "$" then "USD"
      else if sIncludes snippet "€" then "EUR"
      else if sIncludes snippet "₦" then "NGN"
      else "USD"
    ⟨some num, some currency⟩

/-- A civil calendar date. -/
structure CivilDate where
  year : Nat
  month : Nat
  day : Nat
deriving DecidableEq

/-- A JavaScript `Date` value: the Invalid Date object (NaN time value) or a
civil date.  All dates the source constructs are midnight-based, so only the
calendar components are carried. -/
inductive JSDate where
  | invalid
  | valid (d : CivilDate)
deriving DecidableEq

/-- Gregorian leap year. -/
def isLeap (y : Nat) : Bool := (y % 4 == 0 && y % 100 != 0) || y % 400 == 0

/-- Days in a month of the Gregorian calendar. -/
def daysInMonth (y m : Nat) : Nat :=
  if m == 2 then (if isLeap y then 29 else 28)
  else if m == 4 || m == 6 || m == 9 || m == 11 then 30
  else 31

/-- Do the components form a real calendar date? -/
def validYmd (y m d : Nat) : Bool :=
  1 ≤ m && m ≤ 12 && 1 ≤ d && d ≤ daysInMonth y m

/-- Successor day in the Gregorian calendar. -/
def nextDay (dt : CivilDate) : CivilDate :=
  if dt.day < daysInMonth dt.year dt.month then ⟨dt.year, dt.month, dt.day + 1⟩
  else if dt.month < 12 then ⟨dt.year, dt.month + 1, 1⟩
  else ⟨dt.year + 1, 1, 1⟩

/-- Add `n` calendar days. -/
def addDaysCivil : Nat → CivilDate → CivilDate
  | 0, dt => dt
  | k + 1, dt => addDaysCivil k (nextDay dt)

/-- `date-fns/addDays(d, 30)`: Invalid Date stays Invalid Date. -/
def jsAddDays30 : JSDate → JSDate
  | .invalid => .invalid
  | .valid d => .valid (addDaysCivil 30 d)

/-- `new Date(str)` on a string matched by the ISO-like pattern
`20\d\d[-or/]\d\d?[-or/]\d\d?`: the civil date when the components are a real
calendar date, the Invalid Date object otherwise (ECMAScript `Date` rejects
out-of-range components instead of throwing). -/
def jsParseYmd (y mo d : Nat) : JSDate :=
  if validYmd y mo d then .valid ⟨y, mo, d⟩ else .invalid

/-- `new Date(str)` on a string matched by the long-form pattern
(month word, day, comma, 4-digit year): the month is identified by its
three-letter prefix; the date is valid when the day fits the month. -/
def jsParseLong (mo d y : Nat) : JSDate :=
  if 1 ≤ d && d ≤ daysInMonth y mo then .valid ⟨y, mo, d⟩ else .invalid

/-- Date separator of the ISO-like pattern: `[-or/]`. -/
def isSepC (c : Char) : Bool := c == '-' || c == '/'

/-- Month part `\d\d?` followed by the separator, greedy two digits first;
returns the month value and the remainder after the separator. -/
def matchMonthSep : List Char → Option (Nat × List Char)
  | a :: b :: rest =>
    if a.isDigit && b.isDigit then
      match rest with
      | c :: r2 => if isSepC c then some (10 * dval a + dval b, r2) else none
      | [] => none
    else if a.isDigit && isSepC b then some (dval a, rest)
    else none
  | _ => none

/-- Day part `\d\d?\b`: greedy two digits first, then the word boundary;
a two-digit day followed by a word character forces the one-digit
alternative, which then fails on the boundary before the second digit. -/
def matchDayB : List Char → Option Nat
  | [] => none
  | [a] => if a.isDigit then some (dval a) else none
  | a :: b :: rest =>
    if a.isDigit && b.isDigit then
      match rest with
      | [] => some (10 * dval a + dval b)
      | c :: _ => if isWordChar c then none else some (10 * dval a + dval b)
    else if a.isDigit && !isWordChar b then some (dval a)
    else none

/-- The ISO-like pattern `20\d\d[-or/]\d\d?[-or/]\d\d?\b` at the current
position (the leading `\b` is checked by the scanner). -/
def isoMatchAt : List Char → Option (Nat × Nat × Nat)
  | '2' :: '0' :: y1 :: y2 :: sep :: rest =>
    if y1.isDigit && y2.isDigit && isSepC sep then
      match matchMonthSep rest with
      | some (mo, r2) =>
        match matchDayB r2 with
        | some d => some (2000 + 10 * dval y1 + dval y2, mo, d)
        | none => none
      | none => none
    else none
  | _ => none

/-- Leftmost-match scanner for the ISO-like pattern; `prevWord` tracks
whether the previous character was a word character, for the `\b`. -/
def findIsoAux : Bool → List Char → Option (Nat × Nat × Nat)
  | _, [] => none
  | prevWord, c :: t =>
    match (if prevWord then none else isoMatchAt (c :: t)) with
    | some r => some r
    | none => findIsoAux (isWordChar c) t

/-- First match of `\b(20\d\d[-or/]\d\d?[-or/]\d\d?)\b` in the snippet. -/
def findIso (s : List Char) : Option (Nat × Nat × Nat) := findIsoAux false s

/-- The twelve month alternatives of the long-form pattern with their values
(`Sept` of the source alternation is subsumed by `Sep` plus `[a-z]*`). -/
def monthAbbrevs : List (List Char × Nat) :=
  [("jan".toList, 1), ("feb".toList, 2), ("mar".toList, 3), ("apr".toList, 4),
   ("may".toList, 5), ("jun".toList, 6), ("jul".toList, 7), ("aug".toList, 8),
   ("sep".toList, 9), ("oct".toList, 10), ("nov".toList, 11), ("dec".toList, 12)]

/-- ASCII letter, as matched by `[a-z]*` under the `/i` flag. -/
def isAsciiLetter (c : Char) : Bool := c.isAlpha

/-- The month alternation at the current position (case-insensitive);
returns the month value and the remainder after the three matched letters. -/
def monthHead (s : List Char) : Option (Nat × List Char) :=
  monthAbbrevs.findSome? fun pm =>
    if listStartsWithCI pm.1 s then some (pm.2, s.drop 3) else none

/-- Day `\d\d?` directly followed by the literal comma (greedy two digits
first; the one-digit alternative needs the comma as second character). -/
def matchDayComma : List Char → Option (Nat × List Char)
  | a :: b :: rest =>
    if a.isDigit && b.isDigit then
      match rest with
      | c :: r2 => if c == ',' then some (10 * dval a + dval b, r2) else none
      | [] => none
    else if a.isDigit && b == ',' then some (dval a, rest)
    else none
  | _ => none

/-- Year `\d\d\d\d\b`. -/
def matchYear4B : List Char → Option Nat
  | a :: b :: c :: d :: rest =>
    if a.isDigit && b.isDigit && c.isDigit && d.isDigit then
      match rest with
      | [] => some (1000 * dval a + 100 * dval b + 10 * dval c + dval d)
      | e :: _ =>
        if isWordChar e then none
        else some (1000 * dval a + 100 * dval b + 10 * dval c + dval d)
    else none
  | _ => none

/-- The long-form pattern
`(?:Jan|Feb|Mar|Apr|May|Jun|Jul|Aug|Sep|Sept|Oct|Nov|Dec)[a-z]*\s+\d\d?,\s*\d\d\d\d\b/i`
at the current position: month word (extra letters absorbed by `[a-z]*`),
at least one whitespace, day, comma, optional whitespace, 4-digit year.
The greedy `\s+`/`\s*` runs are maximal (shorter runs leave a whitespace
character where a digit is required, so backtracking cannot succeed).
Returns (month, day, year). -/
def longMatchAt (s : List Char) : Option (Nat × Nat × Nat) :=
  match monthHead s with
  | none => none
  | some (mo, r1) =>
    match r1.dropWhile isAsciiLetter with
    | [] => none
    | c :: r3 =>
      if isJsWs c then
        match matchDayComma (r3.dropWhile isJsWs) with
        | some (d, r5) =>
          match matchYear4B (r5.dropWhile isJsWs) with
          | some y => some (mo, d, y)
          | none => none
        | none => none
      else none

/-- Leftmost-match scanner for the long-form pattern, with its leading `\b`. -/
def findLongAux : Bool → List Char → Option (Nat × Nat × Nat)
  | _, [] => none
  | prevWord, c :: t =>
    match (if prevWord then none else longMatchAt (c :: t)) with
    | some r => some r
    | none => findLongAux (isWordChar c) t

/-- First match of the long-form month-name date pattern in the snippet. -/
def findLong (s : List Char) : Option (Nat × Nat × Nat) := findLongAux false s

/-- Return value of `extractDates`: the `start`/`next` fields, `none` for
JavaScript `null`. -/
structure DatePair where
  start : Option JSDate
  next : Option JSDate
deriving DecidableEq

/-- `extractDates` of the source: the ISO-like pattern is tried on the whole
snippet first; on a match, `new Date` plus `addDays(_, 30)` are applied (no
exception occurs, so the `try/catch` never falls through, even for an
Invalid Date).  Otherwise the long-form pattern is tried the same way;
otherwise both fields are `null`. -/
def extractDates (snippet : String) : DatePair :=
  match findIso snippet.toList with
  | some (y, mo, d) =>
    let dd := jsParseYmd y mo d
    ⟨some dd, some (jsAddDays30 dd)⟩
  | none =>
    match findLong snippet.toList with
    | some (mo, d, y) =>
      let dd := jsParseLong mo d y
      ⟨some dd, some (jsAddDays30 dd)⟩
    | none => ⟨none, none⟩

/-- A Gmail-style header object; `name`/`value` may be absent (`undefined`). -/
structure Header where
  name : Option String
  value : Option String
deriving DecidableEq

/-- A message payload; `headers` may be absent (`payload.headers || []`). -/
structure Payload where
  headers : Option (List Header)
deriving DecidableEq

/-- `EmailMsg` of the source: `{ id, snippet?, payload? }`. -/
structure EmailMsg where
  id : String
  snippet : Option String
  payload : Option Payload
deriving DecidableEq

/-- The fixed provider enumeration `knownProviders`, in source order. -/
def knownProviders : List String :=
  ["openai", "perplexity", "claude", "spotify", "youtube", "netflix",
   "stripe", "apple", "amazon"]

/-- The static subscription-intent keyword list of the source. -/
def subscriptionKeywords : List String :=
  ["subscription", "renewal", "renewed", "payment", "invoice", "charged",
   "billed", "receipt", "plan", "auto-renew", "membership"]

/-- `headers.find(h => h.name.toLowerCase() === "from")`: the callback throws
a `TypeError` when a scanned header lacks a string `name`. -/
def findFromE : List Header → Except String (Option Header)
  | [] => .ok none
  | h :: t =>
    match h.name with
    | none => .error "TypeError: cannot read toLowerCase of undefined"
    | some n => if jsToLower n == "from" then .ok (some h) else findFromE t

/-- `guessProviderFromHeaders` of the source: `null` for a missing payload;
otherwise the lower-cased value of the first `from` header (empty string when
the header or its value is missing) is tested by substring against
`knownProviders` in enumeration order. -/
def guessProviderFromHeadersE : Option Payload → Except String (Option String)
  | none => .ok none
  | some p =>
    match findFromE (p.headers.getD []) with
    | .error e => .error e
    | .ok fh =>
      let fromVal :=
        match fh with
        | some h => jsToLower (h.value.getD "")
        | none => ""
      .ok (knownProviders.find? fun pr => sIncludes fromVal pr)

/-- A code alternative `(usd|ngn|eur|gbp)` at the current position (the
snippet is already lower-cased, the `/i` flag adds nothing). -/
def codeStarts (s : List Char) : Bool :=
  listStartsWithCI "usd".toList s || listStartsWithCI "ngn".toList s ||
  listStartsWithCI "eur".toList s || listStartsWithCI "gbp".toList s

/-- `\s?` then a code alternative (a consumed whitespace cannot begin a code,
so the backtracking alternative never succeeds). -/
def codeAfterOptWs (s : List Char) : Bool :=
  match s with
  | [] => false
  | c :: t => if isJsWs c then codeStarts t else codeStarts (c :: t)

/-- After at least one digit: up to `fuel` further positions of the
`\d\x7b1,5\x7d` run, each followed by `\s?` and a code alternative.  Tests
all lengths 1..5, which is match-existence-equivalent to the greedy order. -/
def digitsCodeGo : Nat → List Char → Bool
  | 0, _ => false
  | _, [] => false
  | k + 1, c :: t => c.isDigit && (codeAfterOptWs t || digitsCodeGo k t)

/-- One attempt of the filter regex `\$|₦|€|£|\d\x7b1,5\x7d\s?(usd|ngn|eur|gbp)/i`
at the current position. -/
def currencyTokAt (s : List Char) : Bool :=
  listStartsWith "$".toList s || listStartsWith "₦".toList s ||
  listStartsWith "€".toList s || listStartsWith "£".toList s ||
  digitsCodeGo 5 s

/-- Scanner for the filter regex. -/
def hasCurrencyTokenL : List Char → Bool
  | [] => false
  | c :: t => currencyTokAt (c :: t) || hasCurrencyTokenL t

/-- `snippet.match(/\$|₦|€|£|\d\x7b1,5\x7d\s?(usd|ngn|eur|gbp)/i)` as a test. -/
def hasCurrencyToken (s : String) : Bool := hasCurrencyTokenL s.toList

/-- The character class `[A-Za-z0-9 -]` of the product regex. -/
def isProdClass (c : Char) : Bool := c.isAlphanum || c == ' ' || c == '-'

/-- The class `[\s:]` of the product regex. -/
def isWsColon (c : Char) : Bool := isJsWs c || c == ':'

/-- Matches `[\s:]*([A-Za-z0-9 -]+)` at the current position and returns
group 2.  The `[\s:]*` run is greedy; on failure it backtracks one character
at a time, which can only succeed when that character is a space (the one
character in both classes), making the space part of group 2. -/
def prodTail : List Char → Option (List Char)
  | [] => none
  | c :: t =>
    if isWsColon c then
      match prodTail t with
      | some g => some g
      | none =>
        if isProdClass c then some (List.takeWhile isProdClass (c :: t))
        else none
    else if isProdClass c then some (List.takeWhile isProdClass (c :: t))
    else none

/-- The keyword alternation of the product regex, in source order. -/
def prodKeywords : List (List Char) :=
  ["plan".toList, "subscription".toList, "membership".toList,
   "premium".toList, "pro".toList, "plus".toList, "monthly".toList,
   "annual".toList]

/-- One attempt of the product regex
`(plan|subscription|membership|premium|pro|plus|monthly|annual)[\s:]*([A-Za-z0-9 -]+)/i`
at the current position: alternatives in order, falling through to the next
alternative when the tail fails.  Returns group 2. -/
def prodMatchAt (s : List Char) : Option (List Char) :=
  prodKeywords.findSome? fun kw =>
    if listStartsWithCI kw s then prodTail (s.drop kw.length) else none

/-- Leftmost match of the product regex (no `\b`: keywords match inside words). -/
def findProd : List Char → Option (List Char)
  | [] => none
  | c :: t =>
    match prodMatchAt (c :: t) with
    | some g => some g
    | none => findProd t

/-- `s.trim()` of JavaScript (ASCII whitespace). -/
def jsTrimList (s : List Char) : List Char :=
  ((s.dropWhile isJsWs).reverse.dropWhile isJsWs).reverse

/-- `s.split("\n")[0]`. -/
def firstLine (s : List Char) : List Char := s.takeWhile fun c => !(c == '\n')

/-- Provenance object `rawData: { messageId, snippet }`. -/
structure RawData where
  messageId : String
  snippet : Option String
deriving DecidableEq

/-- `ParsedSub` of the source.  `Option` models absent (`undefined`) fields;
for the two date fields `none` models JavaScript `null`. -/
structure ParsedSub where
  provider : String
  product : Option String
  amount : Option ℚ
  currency : Option String
  startDate : Option JSDate
  nextBilling : Option JSDate
  rawData : RawData
deriving DecidableEq

/-- The candidate filter of the loop body (lines 113-117): brand test and
intent-keyword test on the lower-cased snippet, then the currency-token
regex.  `bks` is the already lower-cased brand list. -/
def accepts (bks : List String) (m : EmailMsg) : Bool :=
  (bks.any fun b => sIncludes (jsToLower (m.snippet.getD "")) b) &&
  (subscriptionKeywords.any fun k => sIncludes (jsToLower (m.snippet.getD "")) k) &&
  hasCurrencyToken (jsToLower (m.snippet.getD ""))

/-- Construction of the candidate record pushed by the loop body, given the
already computed header-based provider guess.  `start || null` is the
identity on the field; `next || (start ? addDays(start, 30) : null)` is
spelled out (every `Date` object, Invalid Date included, is truthy). -/
def buildCandidate (pfh : Option String) (m : EmailMsg) : ParsedSub :=
  let rawSnip := m.snippet.getD ""
  let snippet := jsToLower rawSnip
  let provider :=
    match pfh with
    | some p => p
    | none => (knownProviders.find? fun p => sIncludes snippet p).getD "unknown"
  let ac := extractAmount rawSnip
  let dp := extractDates rawSnip
  let product :=
    match m.snippet with
    | none => none
    | some s => (findProd s.toList).map fun g => String.mk (firstLine (jsTrimList g))
  { provider := provider
    product := product
    amount := ac.amount
    currency := ac.currency
    startDate := dp.start
    nextBilling :=
      match dp.next with
      | some d => some d
      | none =>
        match dp.start with
        | some d => some (jsAddDays30 d)
        | none => none
    rawData := ⟨m.id, m.snippet⟩ }

/-- One iteration of the extraction loop: the header guess runs before the
filter (so its `TypeError` also fires for messages the filter would drop);
`none` models `continue`. -/
def processMessageE (bks : List String) (m : EmailMsg) :
    Except String (Option ParsedSub) :=
  match guessProviderFromHeadersE m.payload with
  | .error e => .error e
  | .ok pfh => .ok (if accepts bks m then some (buildCandidate pfh m) else none)

/-- The whole loop: per-message candidates in input order (`results`);
an exception aborts the batch. -/
def processAllE (bks : List String) : List EmailMsg → Except String (List ParsedSub)
  | [] => .ok []
  | m :: t =>
    match processMessageE bks m with
    | .error e => .error e
    | .ok o =>
      match processAllE bks t with
      | .error e => .error e
      | .ok rest =>
        match o with
        | some r => .ok (r :: rest)
        | none => .ok rest

/-- Deduplication key `provider + "::" + (product ?? "unknown")`. -/
def dedupKey (r : ParsedSub) : String :=
  r.provider ++ "::" ++ r.product.getD "unknown"

/-- The `grouped` map loop: insert only unseen keys, keep insertion order. -/
def dedupGo : List String → List ParsedSub → List ParsedSub
  | _, [] => []
  | seen, r :: t =>
    if dedupKey r ∈ seen then dedupGo seen t
    else r :: dedupGo (dedupKey r :: seen) t

/-- `Array.from(grouped.values())`: first-seen candidate per key, in order. -/
def dedupList (rs : List ParsedSub) : List ParsedSub := dedupGo [] rs

/-- `parseSubscriptionsFromEmails` of the source, with the brand list
`subs.json` supplied as the `subs` parameter (consumed exactly as in the
source: lower-cased, then used only for the brand test). -/
def parseSubscriptionsFromEmailsE (subs : List String) (msgs : List EmailMsg) :
    Except String (List ParsedSub) :=
  match processAllE (subs.map jsToLower) msgs with
  | .error e => .error e
  | .ok rs => .ok (dedupList rs)

/-- Structural well-formedness of a message: every header object carries a
string `name` (the only contract the heuristics rely on). -/
def wellFormedMsgB (m : EmailMsg) : Bool :=
  match m.payload with
  | none => true
  | some p => (p.headers.getD []).all fun h => h.name.isSome

instance {ε α : Type} [DecidableEq ε] [DecidableEq α] : DecidableEq (Except ε α) :=
  fun x y =>
    match x, y with
    | .ok a, .ok b =>
      if h : a = b then .isTrue (h ▸ rfl)
      else .isFalse fun hc => h (Except.ok.inj hc)
    | .error a, .error b =>
      if h : a = b then .isTrue (h ▸ rfl)
      else .isFalse fun hc => h (Except.error.inj hc)
    | .ok _, .error _ => .isFalse fun hc => Except.noConfusion hc
    | .error _, .ok _ => .isFalse fun hc => Except.noConfusion hc

/-- Scenario A message: the Netflix renewal text, no headers. -/
def msgA : EmailMsg :=
  ⟨"m1", some "Your Netflix subscription of $15.99 renewed on 2024-03-05", none⟩

/-- A message whose only date-like substring matches the ISO pattern but is
not a real calendar date. -/
def msgBadDate : EmailMsg :=
  ⟨"m4", some "Netflix plan renewed on 2024-13-45 for 5 usd", none⟩

/-- A message passing the brand and keyword tests but with no currency-like
token. -/
def msgNoTok : EmailMsg :=
  ⟨"m2", some "netflix subscription renewal", none⟩

/-- A structurally ill-formed message: a header object without a `name`. -/
def msgBadHdr : EmailMsg :=
  ⟨"mx", some "netflix subscription renewal", some ⟨some [⟨none, none⟩]⟩⟩

/-- A message with a `From` header resolving to a different provider than
the body text. -/
def msgHdr : EmailMsg :=
  ⟨"m8", some "netflix subscription $5",
   some ⟨some [⟨some "From", some "Spotify <billing@spotify.com>"⟩]⟩⟩

/-! Helper lemmas. -/

theorem extractAmount_of_none {s : String} (h : findMoney s.toList = none) :
    extractAmount s = ⟨none, none⟩ := by
  unfold extractAmount; rw [h]

theorem extractAmount_of_some {s : String} {g : List Char}
    (h : findMoney s.toList = some g) :
    extractAmount s =
      ⟨some (jsParseFloat (jsReplaceFirstComma g)),
       some (if sIncludes s "$" then "USD"
             else if sIncludes s "€" then "EUR"
             else if sIncludes s "₦" then "NGN"
             else "USD")⟩ := by
  unfold extractAmount; rw [h]

theorem extractAmount_isSome_iff (s : String) :
    (extractAmount s).amount.isSome = (extractAmount s).currency.isSome := by
  cases h : findMoney s.toList with
  | none => rw [extractAmount_of_none h]; rfl
  | some g => rw [extractAmount_of_some h]; rfl

theorem extractDates_iso {s : String} {y mo d : Nat}
    (h : findIso s.toList = some (y, mo, d)) :
    extractDates s =
      ⟨some (jsParseYmd y mo d), some (jsAddDays30 (jsParseYmd y mo d))⟩ := by
  unfold extractDates; rw [h]

theorem extractDates_long {s : String} {mo d y : Nat}
    (h1 : findIso s.toList = none) (h2 : findLong s.toList = some (mo, d, y)) :
    extractDates s =
      ⟨some (jsParseLong mo d y), some (jsAddDays30 (jsParseLong mo d y))⟩ := by
  unfold extractDates; rw [h1, h2]

theorem buildCandidate_provider_some (p : String) (m : EmailMsg) :
    (buildCandidate (some p) m).provider = p := rfl

theorem buildCandidate_provider_none (m : EmailMsg) :
    (buildCandidate none m).provider =
      ((knownProviders.find? fun p =>
          sIncludes (jsToLower (m.snippet.getD "")) p).getD "unknown") := rfl

theorem buildCandidate_amount (pfh : Option String) (m : EmailMsg) :
    (buildCandidate pfh m).amount = (extractAmount (m.snippet.getD "")).amount := rfl

theorem buildCandidate_currency (pfh : Option String) (m : EmailMsg) :
    (buildCandidate pfh m).currency = (extractAmount (m.snippet.getD "")).currency := rfl

theorem buildCandidate_startDate (pfh : Option String) (m : EmailMsg) :
    (buildCandidate pfh m).startDate = (extractDates (m.snippet.getD "")).start := rfl

theorem buildCandidate_rawData (pfh : Option String) (m : EmailMsg) :
    (buildCandidate pfh m).rawData = ⟨m.id, m.snippet⟩ := rfl

theorem buildCandidate_nextBilling (pfh : Option String) (m : EmailMsg) :
    (buildCandidate pfh m).nextBilling =
      (match (extractDates (m.snippet.getD "")).next with
       | some d => some d
       | none =>
         match (extractDates (m.snippet.getD "")).start with
         | some d => some (jsAddDays30 d)
         | none => none) := rfl

theorem buildCandidate_nextBilling_of_pair {m : EmailMsg} (pfh : Option String)
    {d1 d2 : JSDate} (h : extractDates (m.snippet.getD "") = ⟨some d1, some d2⟩) :
    (buildCandidate pfh m).nextBilling = some d2 := by
  rw [buildCandidate_nextBilling, h]

theorem processMessageE_ok_some {bks : List String} {m : EmailMsg} {c : ParsedSub}
    (h : processMessageE bks m = .ok (some c)) :
    ∃ pfh, guessProviderFromHeadersE m.payload = .ok pfh ∧
      accepts bks m = true ∧ c = buildCandidate pfh m := by
  unfold processMessageE at h
  cases hg : guessProviderFromHeadersE m.payload with
  | error e => rw [hg] at h; exact absurd h (by simp)
  | ok pfh =>
    rw [hg] at h
    cases ha : accepts bks m with
    | false => rw [ha] at h; simp at h
    | true =>
      rw [ha] at h
      simp only [if_true, Except.ok.injEq, Option.some.injEq] at h
      exact ⟨pfh, rfl, rfl, h.symm⟩

theorem processMessageE_ok_none {bks : List String} {m : EmailMsg}
    {pfh : Option String} (hg : guessProviderFromHeadersE m.payload = .ok pfh)
    (ha : accepts bks m = false) :
    processMessageE bks m = .ok none := by
  unfold processMessageE
  rw [hg, ha]
  simp

theorem processAllE_length (bks : List String) (msgs : List EmailMsg) :
    ∀ rs, processAllE bks msgs = .ok rs → rs.length ≤ msgs.length := by
  induction msgs with
  | nil =>
    intro rs h
    unfold processAllE at h
    simp only [Except.ok.injEq] at h
    simp [← h]
  | cons m t ih =>
    intro rs h
    unfold processAllE at h
    cases hm : processMessageE bks m with
    | error e => rw [hm] at h; exact absurd h (by simp)
    | ok o =>
      rw [hm] at h
      cases hr : processAllE bks t with
      | error e => rw [hr] at h; exact absurd h (by simp)
      | ok rest =>
        rw [hr] at h
        cases o with
        | some r =>
          simp only [Except.ok.injEq] at h
          rw [← h]
          simpa using Nat.succ_le_succ (ih rest hr)
        | none =>
          simp only [Except.ok.injEq] at h
          rw [← h]
          exact Nat.le_trans (ih rest hr) (Nat.le_succ _)

theorem processAllE_mem (bks : List String) (msgs : List EmailMsg) :
    ∀ rs, processAllE bks msgs = .ok rs →
      ∀ r ∈ rs, ∃ m ∈ msgs, processMessageE bks m = .ok (some r) := by
  induction msgs with
  | nil =>
    intro rs h r hr
    unfold processAllE at h
    simp only [Except.ok.injEq] at h
    rw [← h] at hr
    simp at hr
  | cons m t ih =>
    intro rs h r hr
    unfold processAllE at h
    cases hm : processMessageE bks m with
    | error e => rw [hm] at h; exact absurd h (by simp)
    | ok o =>
      rw [hm] at h
      cases hrest : processAllE bks t with
      | error e => rw [hrest] at h; exact absurd h (by simp)
      | ok rest =>
        rw [hrest] at h
        cases o with
        | some r0 =>
          simp only [Except.ok.injEq] at h
          rw [← h] at hr
          rcases List.mem_cons.mp hr with h1 | h2
          · exact ⟨m, List.mem_cons_self m t, by rw [hm, h1]⟩
          · obtain ⟨m', hm', hp⟩ := ih rest hrest r h2
            exact ⟨m', List.mem_cons_of_mem m hm', hp⟩
        | none =>
          simp only [Except.ok.injEq] at h
          rw [← h] at hr
          obtain ⟨m', hm', hp⟩ := ih rest hrest r hr
          exact ⟨m', List.mem_cons_of_mem m hm', hp⟩

theorem findFromE_ok :
    ∀ hs : List Header, (∀ x ∈ hs, x.name.isSome = true) →
      ∃ o, findFromE hs = .ok o := by
  intro hs
  induction hs with
  | nil => intro _; exact ⟨none, rfl⟩
  | cons hd t ih =>
    intro h
    obtain ⟨hname, hvalue⟩ := hd
    cases hname with
    | none =>
      have := h ⟨none, hvalue⟩ (List.mem_cons_self _ t)
      simp at this
    | some n =>
      simp only [findFromE]
      split
      · exact ⟨some ⟨some n, hvalue⟩, rfl⟩
      · exact ih fun x hx => h x (List.mem_cons_of_mem _ hx)

theorem guessE_ok {m : EmailMsg} (h : wellFormedMsgB m = true) :
    ∃ pfh, guessProviderFromHeadersE m.payload = .ok pfh := by
  cases hp : m.payload with
  | none => exact ⟨none, rfl⟩
  | some p =>
    unfold wellFormedMsgB at h
    rw [hp] at h
    have h2 : ((p.headers.getD []).all fun x => x.name.isSome) = true := h
    have hall : ∀ x ∈ p.headers.getD [], x.name.isSome = true := by
      intro x hx
      exact List.all_eq_true.mp h2 x hx
    obtain ⟨o, ho⟩ := findFromE_ok _ hall
    simp only [guessProviderFromHeadersE]
    rw [ho]
    exact ⟨_, rfl⟩

theorem processMessageE_ok_of_wf {bks : List String} {m : EmailMsg}
    (h : wellFormedMsgB m = true) : ∃ o, processMessageE bks m = .ok o := by
  obtain ⟨pfh, hg⟩ := guessE_ok h
  unfold processMessageE
  rw [hg]
  exact ⟨_, rfl⟩

theorem processAllE_ok {bks : List String} :
    ∀ msgs : List EmailMsg, (∀ m ∈ msgs, wellFormedMsgB m = true) →
      ∃ rs, processAllE bks msgs = .ok rs := by
  intro msgs
  induction msgs with
  | nil => intro _; exact ⟨[], rfl⟩
  | cons m t ih =>
    intro h
    obtain ⟨o, ho⟩ := @processMessageE_ok_of_wf bks m
      (h m (List.mem_cons_self m t))
    obtain ⟨rs, hrs⟩ := ih fun x hx => h x (List.mem_cons_of_mem m hx)
    unfold processAllE
    rw [ho, hrs]
    cases o with
    | some r => exact ⟨r :: rs, rfl⟩
    | none => exact ⟨rs, rfl⟩

theorem parseE_ok_inv {subs : List String} {msgs : List EmailMsg}
    {out : List ParsedSub} (h : parseSubscriptionsFromEmailsE subs msgs = .ok out) :
    ∃ rs, processAllE (subs.map jsToLower) msgs = .ok rs ∧ out = dedupList rs := by
  unfold parseSubscriptionsFromEmailsE at h
  cases hall : processAllE (subs.map jsToLower) msgs with
  | error e => rw [hall] at h; exact absurd h (by simp)
  | ok rs =>
    rw [hall] at h
    simp only [Except.ok.injEq] at h
    exact ⟨rs, rfl, h.symm⟩

theorem dedupGo_not_seen :
    ∀ (l : List ParsedSub) (seen : List String), ∀ r ∈ dedupGo seen l,
      dedupKey r ∉ seen := by
  intro l
  induction l with
  | nil => intro seen r hr; simp [dedupGo] at hr
  | cons a t ih =>
    intro seen r hr
    unfold dedupGo at hr
    split at hr
    · exact ih seen r hr
    · rcases List.mem_cons.mp hr with h1 | h2
      · rw [h1]; assumption
      · have := ih (dedupKey a :: seen) r h2
        intro hc
        exact this (List.mem_cons_of_mem _ hc)

theorem dedupGo_sublist :
    ∀ (l : List ParsedSub) (seen : List String), List.Sublist (dedupGo seen l) l := by
  intro l
  induction l with
  | nil => intro seen; simp [dedupGo]
  | cons a t ih =>
    intro seen
    unfold dedupGo
    split
    · exact List.Sublist.cons a (ih seen)
    · exact List.Sublist.cons₂ a (ih (dedupKey a :: seen))

theorem dedupGo_keys_nodup :
    ∀ (l : List ParsedSub) (seen : List String),
      ((dedupGo seen l).map dedupKey).Nodup := by
  intro l
  induction l with
  | nil => intro seen; simp [dedupGo]
  | cons a t ih =>
    intro seen
    unfold dedupGo
    split
    · exact ih seen
    · simp only [List.map_cons, List.nodup_cons]
      refine ⟨?_, ih (dedupKey a :: seen)⟩
      intro hc
      obtain ⟨q, hq, hkq⟩ := List.mem_map.mp hc
      have := dedupGo_not_seen t (dedupKey a :: seen) q hq
      rw [hkq] at this
      exact this (List.mem_cons_self _ _)

theorem dedupGo_find_first :
    ∀ (l : List ParsedSub) (seen : List String), ∀ r ∈ dedupGo seen l,
      l.find? (fun x => dedupKey x == dedupKey r) = some r := by
  intro l
  induction l with
  | nil => intro seen r hr; simp [dedupGo] at hr
  | cons a t ih =>
    intro seen r hr
    unfold dedupGo at hr
    split at hr
    · rename_i hseen
      have hr_not : dedupKey r ∉ seen := dedupGo_not_seen t seen r hr
      have hne : (dedupKey a == dedupKey r) = false := by
        simp only [beq_eq_false_iff_ne, ne_eq]
        intro hc
        exact hr_not (hc ▸ hseen)
      simp only [List.find?, hne]
      exact ih seen r hr
    · rcases List.mem_cons.mp hr with h1 | h2
      · rw [h1]
        simp [List.find?]
      · have hr_not : dedupKey r ∉ dedupKey a :: seen :=
          dedupGo_not_seen t (dedupKey a :: seen) r h2
        have hne : (dedupKey a == dedupKey r) = false := by
          simp only [beq_eq_false_iff_ne, ne_eq]
          intro hc
          exact hr_not (by rw [← hc]; exact List.mem_cons_self _ _)
        simp only [List.find?, hne]
        exact ih (dedupKey a :: seen) r h2

theorem dedupGo_covers :
    ∀ (l : List ParsedSub) (seen : List String), ∀ r ∈ l,
      dedupKey r ∉ seen → ∃ q ∈ dedupGo seen l, dedupKey q = dedupKey r := by
  intro l
  induction l with
  | nil => intro seen r hr; simp at hr
  | cons a t ih =>
    intro seen r hr hns
    unfold dedupGo
    rcases List.mem_cons.mp hr with h1 | h2
    · split
      · rename_i hseen
        rw [h1] at hns
        exact absurd hseen hns
      · exact ⟨a, List.mem_cons_self _ _, by rw [h1]⟩
    · split
      · exact ih seen r h2 hns
      · by_cases hk : dedupKey r = dedupKey a
        · exact ⟨a, List.mem_cons_self _ _, hk.symm⟩
        · have hns2 : dedupKey r ∉ dedupKey a :: seen := by
            intro hc
            rcases List.mem_cons.mp hc with hc1 | hc2
            · exact hk hc1
            · exact hns hc2
          obtain ⟨q, hq, hkq⟩ := ih (dedupKey a :: seen) r h2 hns2
          exact ⟨q, List.mem_cons_of_mem _ hq, hkq⟩

theorem parseE_singleton {subs : List String} {m : EmailMsg} {pfh : Option String}
    (hg : guessProviderFromHeadersE m.payload = .ok pfh)
    (ha : accepts (subs.map jsToLower) m = true) :
    parseSubscriptionsFromEmailsE subs [m] = .ok [buildCandidate pfh m] := by
  unfold parseSubscriptionsFromEmailsE processAllE processMessageE
  rw [hg, ha]
  rfl

/-! The claims. -/

/-- C1: on the single-message batch with text
`Your Netflix subscription of $15.99 renewed on 2024-03-05` (no headers) and
a brand list containing `netflix`, the entry point produces exactly one
candidate with provider `netflix`, amount 15.99, currency `USD`, start date
2024-03-05 and next billing 2024-04-04. -/
theorem claimC1 (subs : List String) (h : "netflix" ∈ subs) :
    ∃ c, parseSubscriptionsFromEmailsE subs [msgA] = .ok [c] ∧
      c.provider = "netflix" ∧ c.amount = some (1599 / 100 : ℚ) ∧
      c.currency = some "USD" ∧
      c.startDate = some (JSDate.valid ⟨2024, 3, 5⟩) ∧
      c.nextBilling = some (JSDate.valid ⟨2024, 4, 4⟩) := by
  have hb : ((subs.map jsToLower).any fun b =>
      sIncludes (jsToLower (msgA.snippet.getD "")) b) = true := by
    refine List.any_eq_true.mpr ⟨jsToLower "netflix", List.mem_map_of_mem _ h, ?_⟩
    decide
  have ha : accepts (subs.map jsToLower) msgA = true := by
    unfold accepts
    rw [hb]
    decide
  refine ⟨buildCandidate none msgA, parseE_singleton rfl ha, by decide, ?_,
    by decide, by decide, by decide⟩
  have h1 : (buildCandidate none msgA).amount =
      some (((15 : ℕ) : ℚ) + ((99 : ℕ) : ℚ) / (10 : ℚ) ^ (2 : ℕ)) := rfl
  rw [h1]
  norm_num

/-- Witness for C1 at the brand list `["netflix"]`. -/
theorem claimC1_w :
    ("netflix" ∈ (["netflix"] : List String)) ∧
    (∃ c, parseSubscriptionsFromEmailsE ["netflix"] [msgA] = .ok [c] ∧
      c.provider = "netflix" ∧ c.amount = some (1599 / 100 : ℚ) ∧
      c.currency = some "USD" ∧
      c.startDate = some (JSDate.valid ⟨2024, 3, 5⟩) ∧
      c.nextBilling = some (JSDate.valid ⟨2024, 4, 4⟩)) :=
  ⟨by decide, claimC1 ["netflix"] (by decide)⟩

/-- C2 counterexample: the header-provider guess runs before the filter, so a
message that fails every filter condition but carries a header object without
a `name` makes the batch raise a `TypeError` instead of being dropped
silently — the claim's unconditional "no candidate and no error" is false. -/
theorem claimC2_cex :
    accepts (([] : List String).map jsToLower) msgBadHdr = false ∧
    parseSubscriptionsFromEmailsE [] [msgBadHdr] =
      .error "TypeError: cannot read toLowerCase of undefined" :=
  ⟨by decide, rfl⟩

/-- C2 (amended): for a structurally well-formed message, a candidate is
produced only if the lower-cased text contains a brand, an intent keyword and
a currency-like token; a well-formed message failing any of the three yields
no candidate and no error. -/
theorem claimC2 (subs : List String) (m : EmailMsg)
    (hwf : wellFormedMsgB m = true) :
    (∀ c, processMessageE (subs.map jsToLower) m = .ok (some c) →
      ((subs.map jsToLower).any fun b =>
        sIncludes (jsToLower (m.snippet.getD "")) b) = true ∧
      (subscriptionKeywords.any fun k =>
        sIncludes (jsToLower (m.snippet.getD "")) k) = true ∧
      hasCurrencyToken (jsToLower (m.snippet.getD "")) = true) ∧
    (¬(((subs.map jsToLower).any fun b =>
        sIncludes (jsToLower (m.snippet.getD "")) b) = true ∧
      (subscriptionKeywords.any fun k =>
        sIncludes (jsToLower (m.snippet.getD "")) k) = true ∧
      hasCurrencyToken (jsToLower (m.snippet.getD "")) = true) →
      processMessageE (subs.map jsToLower) m = .ok none) := by
  constructor
  · intro c hc
    obtain ⟨pfh, hg, ha, hcb⟩ := processMessageE_ok_some hc
    simpa only [accepts, Bool.and_eq_true, and_assoc] using ha
  · intro hn
    obtain ⟨pfh, hg⟩ := guessE_ok hwf
    refine processMessageE_ok_none hg ?_
    cases ha : accepts (subs.map jsToLower) m
    · rfl
    · exact absurd (by simpa only [accepts, Bool.and_eq_true, and_assoc] using ha) hn

/-- Witness for C2 (amended) on a well-formed message with brand and keyword
but no currency-like token. -/
theorem claimC2_w :
    wellFormedMsgB msgNoTok = true ∧
    processMessageE ((["netflix"] : List String).map jsToLower) msgNoTok =
      .ok none :=
  ⟨by decide, (claimC2 ["netflix"] msgNoTok (by decide)).2 (by decide)⟩

/-- C3: the output of the entry point is the per-message candidate list
deduplicated by the `provider::product` key: keys are pairwise distinct, the
output is a subsequence of the per-message list (so output order is
first-seen input order), each output candidate is the first per-message
candidate carrying its key, and no key is lost. -/
theorem claimC3 (subs : List String) (msgs : List EmailMsg)
    (rs : List ParsedSub)
    (h : processAllE (subs.map jsToLower) msgs = .ok rs) :
    parseSubscriptionsFromEmailsE subs msgs = .ok (dedupList rs) ∧
    ((dedupList rs).map dedupKey).Nodup ∧
    List.Sublist (dedupList rs) rs ∧
    (∀ r ∈ dedupList rs, rs.find? (fun x => dedupKey x == dedupKey r) = some r) ∧
    (∀ r ∈ rs, ∃ q ∈ dedupList rs, dedupKey q = dedupKey r) := by
  refine ⟨?_, dedupGo_keys_nodup rs [], dedupGo_sublist rs [],
    fun r hr => dedupGo_find_first rs [] r hr,
    fun r hr => dedupGo_covers rs [] r hr (by simp)⟩
  unfold parseSubscriptionsFromEmailsE
  rw [h]

/-- Witness for C3 on a concrete singleton batch. -/
theorem claimC3_w :
    processAllE ((["netflix"] : List String).map jsToLower) [msgA] =
      .ok [buildCandidate none msgA] ∧
    parseSubscriptionsFromEmailsE ["netflix"] [msgA] =
      .ok (dedupList [buildCandidate none msgA]) ∧
    ((dedupList [buildCandidate none msgA]).map dedupKey).Nodup :=
  ⟨by rfl, (claimC3 ["netflix"] [msgA] [buildCandidate none msgA] (by rfl)).1,
   (claimC3 ["netflix"] [msgA] [buildCandidate none msgA] (by rfl)).2.1⟩

/-- C4 (code-bug evidence): on a well-formed message whose only date-like
substring `2024-13-45` matches the ISO pattern but is not a real calendar
date, a candidate is produced whose `startDate` and `nextBilling` hold the
(truthy) Invalid Date object rather than the `null` required by the claim:
`new Date` never throws, so the `catch` of `extractDates` is dead code. -/
theorem claimC4_eval :
    parseSubscriptionsFromEmailsE ["netflix"] [msgBadDate] =
      .ok [buildCandidate none msgBadDate] ∧
    (buildCandidate none msgBadDate).startDate = some JSDate.invalid ∧
    (buildCandidate none msgBadDate).nextBilling = some JSDate.invalid ∧
    (buildCandidate none msgBadDate).startDate ≠ none :=
  ⟨parseE_singleton rfl (by decide), by decide, by decide, by decide⟩

/-- C5: on every candidate of the output, `amount` and `currency` are both
present or both absent, and when the source message's text has no numeric
match at all, both are absent. -/
theorem claimC5 (subs : List String) (msgs : List EmailMsg)
    (out : List ParsedSub)
    (h : parseSubscriptionsFromEmailsE subs msgs = .ok out) :
    ∀ c ∈ out, (c.amount.isSome ↔ c.currency.isSome) ∧
      (findMoney (c.rawData.snippet.getD "").toList = none →
        c.amount = none ∧ c.currency = none) := by
  intro c hc
  obtain ⟨rs, hall, hout⟩ := parseE_ok_inv h
  rw [hout] at hc
  have hcrs : c ∈ rs := (dedupGo_sublist rs []).subset hc
  obtain ⟨m, hm, hp⟩ := processAllE_mem _ msgs rs hall c hcrs
  obtain ⟨pfh, hg, ha, hcb⟩ := processMessageE_ok_some hp
  subst hcb
  constructor
  · rw [buildCandidate_amount pfh m, buildCandidate_currency pfh m,
      extractAmount_isSome_iff (m.snippet.getD "")]
  · intro hnone
    have hn2 : findMoney (m.snippet.getD "").toList = none := hnone
    constructor
    · rw [buildCandidate_amount pfh m, extractAmount_of_none hn2]
    · rw [buildCandidate_currency pfh m, extractAmount_of_none hn2]

/-- Witness for C5 on a concrete batch. -/
theorem claimC5_w :
    parseSubscriptionsFromEmailsE ["netflix"] [msgA] =
      .ok [buildCandidate none msgA] ∧
    ((buildCandidate none msgA).amount.isSome ↔
      (buildCandidate none msgA).currency.isSome) :=
  ⟨by rfl,
   ((claimC5 ["netflix"] [msgA] [buildCandidate none msgA] (by rfl))
     (buildCandidate none msgA) (by simp)).1⟩

/-- C6: when the Monetary Extractor finds a numeric match and no explicit
3-letter code (`usd`/`eur`/`ngn`, case-insensitively) occurs in the text,
the currency follows the precedence dollar, euro, naira, default `USD`
(the source in fact never consults the codes). -/
theorem claimC6 (s : String)
    (hnum : (extractAmount s).amount.isSome = true)
    (hcode : ¬(sIncludes (jsToLower s) "usd" = true ∨
      sIncludes (jsToLower s) "eur" = true ∨
      sIncludes (jsToLower s) "ngn" = true)) :
    (extractAmount s).currency =
      some (if sIncludes s "$" then "USD"
            else if sIncludes s "€" then "EUR"
            else if sIncludes s "₦" then "NGN"
            else "USD") := by
  cases h : findMoney s.toList with
  | none => rw [extractAmount_of_none h] at hnum; simp at hnum
  | some g => rw [extractAmount_of_some h]

/-- Witness for C6 on a code-free, symbol-free text (default `USD`). -/
theorem claimC6_w :
    (extractAmount "Netflix Pro renewed for 9.99").amount.isSome = true ∧
    ¬(sIncludes (jsToLower "Netflix Pro renewed for 9.99") "usd" = true ∨
      sIncludes (jsToLower "Netflix Pro renewed for 9.99") "eur" = true ∨
      sIncludes (jsToLower "Netflix Pro renewed for 9.99") "ngn" = true) ∧
    (extractAmount "Netflix Pro renewed for 9.99").currency =
      some (if sIncludes "Netflix Pro renewed for 9.99" "$" then "USD"
            else if sIncludes "Netflix Pro renewed for 9.99" "€" then "EUR"
            else if sIncludes "Netflix Pro renewed for 9.99" "₦" then "NGN"
            else "USD") :=
  ⟨by decide, by decide, claimC6 _ (by decide) (by decide)⟩

/-- C7: when the date selection (ISO pattern first on the whole text, then
the long-form pattern, first occurrence each) yields a substring parsing to
a valid date, the candidate's `startDate` is that date and `nextBilling` is
30 calendar days later. -/
theorem claimC7 (bks : List String) (m : EmailMsg) (c : ParsedSub)
    (y mo d : Nat)
    (hp : processMessageE bks m = .ok (some c))
    (hdate :
      (findIso (m.snippet.getD "").toList = some (y, mo, d) ∧
        validYmd y mo d = true) ∨
      (findIso (m.snippet.getD "").toList = none ∧
        findLong (m.snippet.getD "").toList = some (mo, d, y) ∧
        (1 ≤ d && d ≤ daysInMonth y mo) = true)) :
    c.startDate = some (JSDate.valid ⟨y, mo, d⟩) ∧
    c.nextBilling = some (JSDate.valid (addDaysCivil 30 ⟨y, mo, d⟩)) := by
  obtain ⟨pfh, hg, ha, hcb⟩ := processMessageE_ok_some hp
  subst hcb
  have hed : extractDates (m.snippet.getD "") =
      ⟨some (JSDate.valid ⟨y, mo, d⟩),
       some (JSDate.valid (addDaysCivil 30 ⟨y, mo, d⟩))⟩ := by
    rcases hdate with ⟨hiso, hval⟩ | ⟨hniso, hlong, hval⟩
    · rw [extractDates_iso hiso]
      unfold jsParseYmd
      rw [hval]
      rfl
    · rw [extractDates_long hniso hlong]
      unfold jsParseLong
      rw [hval]
      rfl
  exact ⟨by rw [buildCandidate_startDate pfh m, hed],
    buildCandidate_nextBilling_of_pair pfh hed⟩

/-- Witness for C7 on the Scenario A message. -/
theorem claimC7_w :
    processMessageE ["netflix"] msgA = .ok (some (buildCandidate none msgA)) ∧
    ((buildCandidate none msgA).startDate =
        some (JSDate.valid ⟨2024, 3, 5⟩) ∧
      (buildCandidate none msgA).nextBilling =
        some (JSDate.valid (addDaysCivil 30 ⟨2024, 3, 5⟩))) :=
  ⟨by rfl,
   claimC7 ["netflix"] msgA (buildCandidate none msgA) 2024 3 5 (by rfl)
     (Or.inl ⟨by rfl, by decide⟩)⟩

/-- C8: provider resolution of a produced candidate is two-tier with first
match wins — the header guess when it is `some`, otherwise the first member
of the provider enumeration occurring in the lower-cased text, otherwise the
sentinel `unknown`. -/
theorem claimC8 (bks : List String) (m : EmailMsg) (c : ParsedSub)
    (hp : processMessageE bks m = .ok (some c)) :
    (∀ p, guessProviderFromHeadersE m.payload = .ok (some p) →
      c.provider = p) ∧
    (guessProviderFromHeadersE m.payload = .ok none →
      c.provider = ((knownProviders.find? fun p =>
        sIncludes (jsToLower (m.snippet.getD "")) p).getD "unknown")) := by
  obtain ⟨pfh, hg, ha, hcb⟩ := processMessageE_ok_some hp
  subst hcb
  constructor
  · intro p hgp
    rw [hg] at hgp
    have hpf : pfh = some p := Except.ok.inj hgp
    rw [hpf]
    exact buildCandidate_provider_some p m
  · intro hgn
    rw [hg] at hgn
    have hpf : pfh = none := Except.ok.inj hgn
    rw [hpf]
    exact buildCandidate_provider_none m

/-- Witness for C8: the `From` header wins over the body brand. -/
theorem claimC8_w :
    processMessageE ["netflix"] msgHdr =
      .ok (some (buildCandidate (some "spotify") msgHdr)) ∧
    (buildCandidate (some "spotify") msgHdr).provider = "spotify" :=
  ⟨by rfl,
   (claimC8 ["netflix"] msgHdr (buildCandidate (some "spotify") msgHdr)
     (by rfl)).1 "spotify" (by rfl)⟩

/-- C9: on a structurally well-formed batch (every header object carries a
string `name`) the entry point never raises, whatever the text contents. -/
theorem claimC9 (subs : List String) (msgs : List EmailMsg)
    (hwf : ∀ m ∈ msgs, wellFormedMsgB m = true) :
    ∃ out, parseSubscriptionsFromEmailsE subs msgs = .ok out := by
  obtain ⟨rs, hrs⟩ := @processAllE_ok (subs.map jsToLower) msgs hwf
  refine ⟨dedupList rs, ?_⟩
  unfold parseSubscriptionsFromEmailsE
  rw [hrs]

/-- Witness for C9 on a batch with a well-formed header. -/
theorem claimC9_w :
    (∀ m ∈ [msgHdr], wellFormedMsgB m = true) ∧
    (∃ out, parseSubscriptionsFromEmailsE ["netflix"] [msgHdr] = .ok out) :=
  ⟨by decide, claimC9 ["netflix"] [msgHdr] (by decide)⟩

/-- C10: the output never has more candidates than the batch has messages. -/
theorem claimC10 (subs : List String) (msgs : List EmailMsg)
    (out : List ParsedSub)
    (h : parseSubscriptionsFromEmailsE subs msgs = .ok out) :
    out.length ≤ msgs.length := by
  obtain ⟨rs, hall, hout⟩ := parseE_ok_inv h
  rw [hout]
  exact Nat.le_trans (List.Sublist.length_le (dedupGo_sublist rs []))
    (processAllE_length _ msgs rs hall)

/-- Witness for C10 on the empty batch. -/
theorem claimC10_w :
    parseSubscriptionsFromEmailsE [] ([] : List EmailMsg) = .ok [] ∧
    ([] : List ParsedSub).length ≤ ([] : List EmailMsg).length :=
  ⟨rfl, claimC10 [] [] [] rfl⟩

end SubscriptionService
